import Mathlib

/-!
# Verification of the sleppa release-decision engine

A shallow embedding, in Lean 4, of the core logic of the `sleppa` repository:

* `crates/sleppa_versioner/src/lib.rs` — version-tag parsing (`Tag::try_from`),
  rendering (`Display for Tag`) and incrementing (`Tag::increment`);
* `crates/sleppa_commit_analyzer/src/lib.rs` — the per-commit classifier
  (`CommitAnalyzerPlugin::execute`) and the batch aggregator
  (`CommitAnalyzerPlugin::run`);
* `crates/sleppa_commit_analyzer/src/configuration/mod.rs` — rule evaluation
  (`ReleaseRule::handle`) and rule-set loading (`try_parse`).

Machine integers (`u64`) are modelled as `Nat` with explicit reduction modulo
`2 ^ 64` where the Rust code can overflow.  A Rust panic (`unimplemented!()`)
is modelled as the `none` case of an outer `Option`.  Strings scanned by the
versioner's regular expression are modelled as `List Char`.
-/

/-! ## Characters and decimal digits -/

/-- The character class `[0-9]` of the versioner's regular expression
(ASCII codes 48 to 57). -/
def isDigitChar (c : Char) : Bool :=
  48 ≤ c.toNat && c.toNat ≤ 57

/-- The numeric value of a decimal digit string, folded left to right; this is
what Rust's `str::parse::<u64>` computes on a string of ASCII digits (before
its range check, which is modelled separately at the call site). -/
def digitsVal (l : List Char) : Nat :=
  l.foldl (fun a c => 10 * a + (c.toNat - 48)) 0

/-- Fuel-driven decimal rendering of a natural number, most significant digit
first; `fuel` bounds the recursion depth (any `fuel > n` is enough). -/
def natToDigitsAux : Nat → Nat → List Char
  | 0, _ => []
  | fuel + 1, n =>
    if n < 10 then [Nat.digitChar n]
    else natToDigitsAux fuel (n / 10) ++ [Nat.digitChar (n % 10)]

/-- Decimal rendering of a natural number, as produced by Rust's
`format!("{}", n)` on a `u64`. -/
def natToDigits (n : Nat) : List Char :=
  natToDigitsAux (n + 1) n

/-! ## The versioner's tag grammar

`Tag::try_from` (crates/sleppa_versioner/src/lib.rs, lines 96-129) matches its
input against the regular expression

  `^v{1}(?P<major>[0-9]+).(?P<minor>[0-9]+).(?P<patch>[0-9]+)$`

exactly as written in the source: the two dots are **unescaped**, so each
matches any single character other than a newline.  The matcher below is the
backtracking evaluation of that expression with the Rust `regex` crate's
leftmost-first (greedy) capture semantics: each `[0-9]+` group prefers the
longest digit run that lets the rest of the expression match. -/

/-- Try `f` at `k, k - 1, …, 1`, returning the first success.  This is the
backtracking preference order of a greedy `[0-9]+` group whose candidate
lengths range over `1..=k`. -/
def downFrom (f : Nat → Option α) : Nat → Option α
  | 0 => none
  | k + 1 =>
    match f (k + 1) with
    | some v => some v
    | none => downFrom f k

/-- Match `(?P<patch>[0-9]+)$` against the rest of the input: the whole rest
must be a non-empty digit run, which is the captured patch group. -/
def patchSeg (l : List Char) : Option (List Char) :=
  if l ≠ [] ∧ l.all isDigitChar then some l else none

/-- Match `(?P<minor>[0-9]+).(?P<patch>[0-9]+)$`: a greedy non-empty digit run
(the minor capture), one arbitrary non-newline character for the unescaped
dot, then the patch group. -/
def minorSeg (l : List Char) : Option (List Char × List Char) :=
  downFrom
    (fun k =>
      match l.drop k with
      | c :: rest =>
        if c ≠ '\n' then (patchSeg rest).map (fun p => (l.take k, p)) else none
      | [] => none)
    (l.takeWhile isDigitChar).length

/-- Match `(?P<major>[0-9]+).(?P<minor>[0-9]+).(?P<patch>[0-9]+)$`: a greedy
non-empty digit run (the major capture), one arbitrary non-newline character
for the unescaped dot, then the minor and patch groups. -/
def majorSeg (l : List Char) : Option (List Char × List Char × List Char) :=
  downFrom
    (fun k =>
      match l.drop k with
      | c :: rest =>
        if c ≠ '\n' then (minorSeg rest).map (fun mp => (l.take k, mp.1, mp.2)) else none
      | [] => none)
    (l.takeWhile isDigitChar).length

/-- The three captured groups of the versioner's regular expression, or `none`
when the anchored expression does not match the whole input. -/
def tagCaptures : List Char → Option (List Char × List Char × List Char)
  | 'v' :: rest => majorSeg rest
  | _ => none

/-! ## Tags -/

/-- `2 ^ 64`, the number of values of Rust's `u64`. -/
def u64Size : Nat := 2 ^ 64

/-- The error type of the versioner (`VersionerError`,
crates/sleppa_versioner/src/errors.rs), restricted to the variants `try_from`
can produce: `ErrorNoMatch(String)` when the regular expression does not
match, and `ParsingError` when a captured digit run does not fit in a `u64`
(`str::parse::<u64>` overflow). -/
inductive VersionerError where
  | errorNoMatch (which : String)
  | parsingError
deriving DecidableEq

/-- The `Tag` structure of `crates/sleppa_versioner/src/lib.rs`: three `u64`
components, modelled as `Nat` (every value produced by the code is `< 2 ^ 64`,
enforced at parse time and maintained modulo `2 ^ 64` by `increment`). -/
structure Tag where
  major : Nat
  minor : Nat
  patch : Nat
deriving DecidableEq

/-- Parse one captured digit run as a `u64` (`str::parse::<u64>`): the run is
all digits by construction, so the only failure is the `u64` range check. -/
def parseU64 (d : List Char) : Except VersionerError Nat :=
  if digitsVal d < u64Size then Except.ok (digitsVal d) else Except.error VersionerError.parsingError

/-- `Tag::try_from` (crates/sleppa_versioner/src/lib.rs, lines 96-129): match
the regular expression, then parse the three captures as `u64` in the order
major, minor, patch, failing with `ErrorNoMatch("regex")` when the expression
does not match and with a parsing error on `u64` overflow.  (The source's
`ErrorNoMatch("major number")` etc. branches are unreachable: when the
expression matches, all three mandatory groups have captured.) -/
def tagTryFrom (s : List Char) : Except VersionerError Tag :=
  match tagCaptures s with
  | none => Except.error (VersionerError.errorNoMatch "regex")
  | some (d1, d2, d3) =>
    match parseU64 d1 with
    | Except.error e => Except.error e
    | Except.ok v1 =>
      match parseU64 d2 with
      | Except.error e => Except.error e
      | Except.ok v2 =>
        match parseU64 d3 with
        | Except.error e => Except.error e
        | Except.ok v3 => Except.ok { major := v1, minor := v2, patch := v3 }

/-- The `Display` implementation for `Tag`
(crates/sleppa_versioner/src/lib.rs, lines 143-148):
`write!(f, "v{}.{}.{}", major, minor, patch)`. -/
def tagRender (t : Tag) : List Char :=
  'v' :: natToDigits t.major ++ '.' :: natToDigits t.minor ++ '.' :: natToDigits t.patch

/-- The `ReleaseAction` enumeration of `crates/sleppa_primitives/src/lib.rs`. -/
inductive ReleaseAction where
  | major
  | minor
  | patch
deriving DecidableEq

/-- `Tag::increment` (crates/sleppa_versioner/src/lib.rs, lines 158-181).
The Rust `+= 1` is on a `u64`; the addition is taken modulo `2 ^ 64`, which is
where the release-build wrap-around (and the debug-build overflow panic) at
`u64::MAX` lives. -/
def increment (t : Tag) (release_action : ReleaseAction) : Tag :=
  match release_action with
  | ReleaseAction.major => { major := (t.major + 1) % u64Size, minor := 0, patch := 0 }
  | ReleaseAction.minor => { major := t.major, minor := (t.minor + 1) % u64Size, patch := 0 }
  | ReleaseAction.patch => { major := t.major, minor := t.minor, patch := (t.patch + 1) % u64Size }

/-- Strict lexicographic order on `(major, minor, patch)`. -/
def tagLt (s t : Tag) : Prop :=
  s.major < t.major ∨
    (s.major = t.major ∧ (s.minor < t.minor ∨ (s.minor = t.minor ∧ s.patch < t.patch)))

/-- The component of a tag selected by a release level — the one `increment`
adds `1` to. -/
def levelComponent (t : Tag) : ReleaseAction → Nat
  | ReleaseAction.major => t.major
  | ReleaseAction.minor => t.minor
  | ReleaseAction.patch => t.patch

/-! ## Spec-side tag shape -/

/-- A canonical decimal number string: non-empty, all digits, and no leading
zero (a leading `'0'` only as the single-character string `"0"`). -/
def canonicalNum : List Char → Bool
  | [] => false
  | c :: rest => isDigitChar c && rest.all isDigitChar && (c != '0' || rest.isEmpty)

/-- Modelled from the spec: the tag shape `^v\d+\.\d+\.\d+$` with **literal**
dots, as the spec writes it (the source's regular expression instead leaves
the dots unescaped).  A string conforms exactly when it is a literal `'v'`
followed by three digit runs separated by literal dots, nothing else. -/
def tagShapeSpec : List Char → Bool
  | 'v' :: rest =>
    let parts := rest.splitOn '.'
    parts.length == 3 && parts.all (fun d => !d.isEmpty && d.all isDigitChar)
  | _ => false

/-- A valid canonical tag string: `'v'`, then three canonical number strings
separated by literal dots, each denoting a valid `u64` (the spec's §4.4 parse
contract calls a captured segment valid exactly when it parses as a `u64`). -/
def CanonicalTagStr (s : List Char) : Prop :=
  ∃ d1 d2 d3 : List Char,
    canonicalNum d1 = true ∧ canonicalNum d2 = true ∧ canonicalNum d3 = true ∧
    digitsVal d1 < u64Size ∧ digitsVal d2 < u64Size ∧ digitsVal d3 < u64Size ∧
    s = 'v' :: d1 ++ '.' :: d2 ++ '.' :: d3

deriving instance DecidableEq for Except

/-- The characters of a string literal. -/
def strL (s : String) : List Char := s.data

/-! ## The commit analyzer

`CommitAnalyzerPlugin` (crates/sleppa_commit_analyzer/src/lib.rs) classifies
commit messages with three `ReleaseRule`s and aggregates the per-commit
outcomes into one release decision.  Rule grammars are arbitrary
regular-expression strings compiled at match time by the Rust `regex` crate;
the embedding is parameterised by an abstract `RegexEngine` describing which
grammars compile and which messages they match, so every theorem below holds
for every possible behaviour of the regex crate. -/

/-- An abstract regular-expression engine: `compiles g` says whether
`Regex::new(g)` succeeds, and `isMatch g m` whether the compiled grammar
captures in (i.e. matches somewhere inside) the message `m`. -/
structure RegexEngine where
  compiles : String → Bool
  isMatch : String → String → Bool

/-- The `Commit` structure of `crates/sleppa_primitives/src/lib.rs`:
hash, message, and the optional resolved release action. -/
structure Commit where
  hash : String
  message : String
  release_action : Option ReleaseAction
deriving DecidableEq

/-- The `ReleaseRuleFormat` enumeration
(crates/sleppa_commit_analyzer/src/configuration/mod.rs): `Regex` or the
unimplemented `Peg`. -/
inductive ReleaseRuleFormat where
  | regex
  | peg
deriving DecidableEq

/-- The `ReleaseRule` structure
(crates/sleppa_commit_analyzer/src/configuration/mod.rs): a format and a
grammar string. -/
structure ReleaseRule where
  format : ReleaseRuleFormat
  grammar : String
deriving DecidableEq

/-- The `ReleaseRules` map, `HashMap<ReleaseAction, ReleaseRule>`.  Both the
default configuration and any `try_parse`-validated one bind all three keys,
and `execute` indexes the map with `[]` (which panics on a missing key), so
the total-function model is exact for every rule set that reaches `run`. -/
def ReleaseRules : Type := ReleaseAction → ReleaseRule

/-- Build a rule set from its three rules. -/
def mkRules (rM rm rp : ReleaseRule) : ReleaseRules
  | ReleaseAction.major => rM
  | ReleaseAction.minor => rm
  | ReleaseAction.patch => rp

/-- The `ConfigurationError` variants
(crates/sleppa_commit_analyzer/src/configuration/errors.rs) reachable from
the functions modelled here: `RegexError` (grammar failed to compile),
`ErrorNoMatch` (grammar did not match the message), `ErrorReadingToml`
(document deserialization failed; the payload names the offending key) and
`IncorrectReleaseAction(String)` (a release level is missing). -/
inductive ConfigurationError where
  | regexError
  | errorNoMatch
  | errorReadingToml (key : String)
  | incorrectReleaseAction (msg : String)
deriving DecidableEq

/-- `ReleaseRule::handle`
(crates/sleppa_commit_analyzer/src/configuration/mod.rs, lines 121-139):
for the `Regex` format, compile the grammar (`RegexError` on failure) and
test the commit message (`Ok(())` when captures are found, `ErrorNoMatch`
otherwise); for the `Peg` format the source runs `unimplemented!()`, which
panics — modelled as the outer `none`. -/
def handle (E : RegexEngine) (rule : ReleaseRule) (commit : Commit) :
    Option (Except ConfigurationError Unit) :=
  match rule.format with
  | ReleaseRuleFormat.regex =>
    if E.compiles rule.grammar then
      if E.isMatch rule.grammar commit.message then some (Except.ok ())
      else some (Except.error ConfigurationError.errorNoMatch)
    else some (Except.error ConfigurationError.regexError)
  | ReleaseRuleFormat.peg => none

/-- The `CommitAnalyzerError` variants
(crates/sleppa_commit_analyzer/src/errors.rs) reachable from `run` and
`execute`: `ErrorNoMatching` (no rule matched the commit) and
`InvalidContext(String)` (the context holds no commit list). -/
inductive CommitAnalyzerError where
  | errorNoMatching
  | invalidContext (msg : String)
deriving DecidableEq

/-- `CommitAnalyzerPlugin::execute`
(crates/sleppa_commit_analyzer/src/lib.rs, lines 122-132): test the Major
rule's `handle` result with `is_ok()`; on success return `Major` without
touching the other rules, otherwise fall to Minor, then Patch, and finally
return `ErrorNoMatching`.  A panic in an evaluated rule (`none`) propagates. -/
def execute (E : RegexEngine) (commit : Commit) (release_rule : ReleaseRules) :
    Option (Except CommitAnalyzerError ReleaseAction) :=
  match handle E (release_rule ReleaseAction.major) commit with
  | none => none
  | some (Except.ok _) => some (Except.ok ReleaseAction.major)
  | some (Except.error _) =>
    match handle E (release_rule ReleaseAction.minor) commit with
    | none => none
    | some (Except.ok _) => some (Except.ok ReleaseAction.minor)
    | some (Except.error _) =>
      match handle E (release_rule ReleaseAction.patch) commit with
      | none => none
      | some (Except.ok _) => some (Except.ok ReleaseAction.patch)
      | some (Except.error _) => some (Except.error CommitAnalyzerError.errorNoMatching)

/-- The loop of `CommitAnalyzerPlugin::run`
(crates/sleppa_commit_analyzer/src/lib.rs, lines 76-98): visit each commit in
order; on `Ok(level)` bump that level's counter and set the commit's
`release_action`; on `Err(_)` skip the commit (`continue`); a panic inside
`execute` aborts the whole loop (outer `none`).  Returns the three counters
and the updated commit list. -/
def runLoop (E : RegexEngine) (release_rule : ReleaseRules) :
    List Commit → Option (Nat × Nat × Nat × List Commit)
  | [] => some (0, 0, 0, [])
  | commit :: rest =>
    match execute E commit release_rule, runLoop E release_rule rest with
    | none, _ => none
    | some _, none => none
    | some (Except.ok ReleaseAction.major), some (cM, cm, cp, out) =>
      some (cM + 1, cm, cp, { commit with release_action := some ReleaseAction.major } :: out)
    | some (Except.ok ReleaseAction.minor), some (cM, cm, cp, out) =>
      some (cM, cm + 1, cp, { commit with release_action := some ReleaseAction.minor } :: out)
    | some (Except.ok ReleaseAction.patch), some (cM, cm, cp, out) =>
      some (cM, cm, cp + 1, { commit with release_action := some ReleaseAction.patch } :: out)
    | some (Except.error _), some (cM, cm, cp, out) => some (cM, cm, cp, commit :: out)

/-- `CommitAnalyzerPlugin::run`
(crates/sleppa_commit_analyzer/src/lib.rs, lines 63-115).  The context is
modelled by what `run` reads from it: `context.load_commits()`, an optional
commit list; `None` yields `InvalidContext("No commits found.")`.  After the
loop the decision is `Major` if `major_count > 0`, else `Minor` if
`minor_count > 0`, else `Patch` if `patch_count > 0`, else `None`; the
annotated commits (stored back into the context by the source) are returned
alongside.  The outer `none` is a propagated panic. -/
def run (E : RegexEngine) (release_rule : ReleaseRules) (ctxCommits : Option (List Commit)) :
    Option (Except CommitAnalyzerError (Option ReleaseAction × List Commit)) :=
  match ctxCommits with
  | none => some (Except.error (CommitAnalyzerError.invalidContext "No commits found."))
  | some commits =>
    match runLoop E release_rule commits with
    | none => none
    | some (cM, cm, cp, out) =>
      some (Except.ok
        ((if cM > 0 then some ReleaseAction.major
          else if cm > 0 then some ReleaseAction.minor
          else if cp > 0 then some ReleaseAction.patch
          else none), out))

/-- The spec's description of the aggregate decision: `Major` if some commit
classifies as Major, else `Minor` if some commit classifies as Minor, else
`Patch` if some commit classifies as Patch, else `none`.  "Classifies as `a`"
is `execute` returning `Ok(a)`. -/
def specDecision (E : RegexEngine) (release_rule : ReleaseRules) (commits : List Commit) :
    Option ReleaseAction :=
  if commits.any (fun c => execute E c release_rule == some (Except.ok ReleaseAction.major)) then
    some ReleaseAction.major
  else if commits.any (fun c => execute E c release_rule == some (Except.ok ReleaseAction.minor)) then
    some ReleaseAction.minor
  else if commits.any (fun c => execute E c release_rule == some (Except.ok ReleaseAction.patch)) then
    some ReleaseAction.patch
  else none

/-! ## Rule-set loading

`try_parse` (crates/sleppa_commit_analyzer/src/configuration/mod.rs, lines
148-169) reads the TOML document, deserializes it into
`CommitAnalyzerConfiguration` and then checks that each of the three release
levels is bound.  The document's `release_rules` table is modelled as an
association list of raw string keys; deserialization of each key follows the
serde attribute `#[serde(rename_all = "lowercase")]` on `ReleaseAction`:
exactly the strings `"major"`, `"minor"`, `"patch"` deserialize, and any
other key makes `toml::from_str` fail with an unknown-variant error. -/

/-- Deserialize one `release_rules` key per
`#[serde(rename_all = "lowercase")]`: case-sensitive exact match. -/
def deserializeKey (k : String) : Option ReleaseAction :=
  if k = "major" then some ReleaseAction.major
  else if k = "minor" then some ReleaseAction.minor
  else if k = "patch" then some ReleaseAction.patch
  else none

/-- Deserialize the whole `release_rules` table, failing on the first key
that is not a `ReleaseAction` name (serde unknown-variant error, surfaced by
`toml::from_str` and wrapped as `ErrorReadingToml`). -/
def deserializeRules : List (String × ReleaseRule) →
    Except ConfigurationError (List (ReleaseAction × ReleaseRule))
  | [] => Except.ok []
  | (k, r) :: rest =>
    match deserializeKey k with
    | none => Except.error (ConfigurationError.errorReadingToml k)
    | some a =>
      match deserializeRules rest with
      | Except.error e => Except.error e
      | Except.ok t => Except.ok ((a, r) :: t)

/-- `HashMap::get` on the deserialized table. -/
def lookupRule (rules : List (ReleaseAction × ReleaseRule)) (a : ReleaseAction) :
    Option ReleaseRule :=
  (rules.find? (fun p => p.1 == a)).map (fun p => p.2)

/-- `try_parse` (crates/sleppa_commit_analyzer/src/configuration/mod.rs,
lines 148-169), applied to the parsed `release_rules` table: deserialize,
then return `IncorrectReleaseAction("major is missing")` if `major` is
unbound, else the same for `minor`, then `patch`, else the configuration. -/
def tryParse (doc : List (String × ReleaseRule)) :
    Except ConfigurationError (List (ReleaseAction × ReleaseRule)) :=
  match deserializeRules doc with
  | Except.error e => Except.error e
  | Except.ok rules =>
    if (lookupRule rules ReleaseAction.major).isNone then
      Except.error (ConfigurationError.incorrectReleaseAction "major is missing")
    else if (lookupRule rules ReleaseAction.minor).isNone then
      Except.error (ConfigurationError.incorrectReleaseAction "minor is missing")
    else if (lookupRule rules ReleaseAction.patch).isNone then
      Except.error (ConfigurationError.incorrectReleaseAction "patch is missing")
    else Except.ok rules

/-! ## Concrete specimens

Closed theorems (counterexamples and witnesses) need a concrete
`RegexEngine`.  `specimenEngine` fixes one that agrees with the Rust `regex`
crate on every grammar/message pair the concrete instances below use:
`Regex::new("(")` fails (unbalanced parenthesis), every other grammar used is
a literal, and a literal grammar matches exactly the messages containing it —
the concrete messages used are either equal to the grammar or share no
character with it. -/

/-- A concrete regex engine: the grammar `"("` does not compile; a compiled
grammar matches exactly the message equal to it. -/
def specimenEngine : RegexEngine :=
  { compiles := fun g => g != "(", isMatch := fun g m => m == g }

/-- `tagLt` is decidable (it is a propositional combination of `Nat`
comparisons). -/
instance (s t : Tag) : Decidable (tagLt s t) := by
  unfold tagLt
  infer_instance

instance releaseActionDecForall (P : ReleaseAction → Prop) [DecidablePred P] :
    Decidable (∀ a, P a) :=
  decidable_of_iff (P ReleaseAction.major ∧ P ReleaseAction.minor ∧ P ReleaseAction.patch)
    (by
      constructor
      · rintro ⟨h1, h2, h3⟩ a
        cases a
        · exact h1
        · exact h2
        · exact h3
      · intro h
        exact ⟨h _, h _, h _⟩)

/-- What one pass of the aggregation loop does to one commit: annotate it
with the classified level, or leave it unchanged. -/
def annotateCommit (E : RegexEngine) (R : ReleaseRules) (c : Commit) : Commit :=
  match execute E c R with
  | some (Except.ok a) => { c with release_action := some a }
  | _ => c

/-- A rule using the unimplemented `Peg` format. -/
def pegRule : ReleaseRule := { format := ReleaseRuleFormat.peg, grammar := "" }

/-- A rule set whose three rules all use the `Peg` format. -/
def pegOnlyRules : ReleaseRules := mkRules pegRule pegRule pegRule

/-- A regex rule whose grammar `"("` does not compile (unbalanced
parenthesis, rejected by `Regex::new`). -/
def ruleParen : ReleaseRule := { format := ReleaseRuleFormat.regex, grammar := "(" }

/-- A regex rule with the literal grammar `"x"`. -/
def ruleX : ReleaseRule := { format := ReleaseRuleFormat.regex, grammar := "x" }

/-- A regex rule with the literal grammar `"y"`. -/
def ruleY : ReleaseRule := { format := ReleaseRuleFormat.regex, grammar := "y" }

/-- A regex rule with the literal grammar `"a"`. -/
def ruleA : ReleaseRule := { format := ReleaseRuleFormat.regex, grammar := "a" }

/-- A regex rule with the literal grammar `"b"`. -/
def ruleB : ReleaseRule := { format := ReleaseRuleFormat.regex, grammar := "b" }

/-- A regex rule with the literal grammar `"c"`. -/
def ruleC : ReleaseRule := { format := ReleaseRuleFormat.regex, grammar := "c" }

/-- A rule set with a malformed Major grammar and well-formed lower rules. -/
def faultRules : ReleaseRules := mkRules ruleParen ruleX ruleX

/-- An all-regex rule set: Major matches `"a"`, Minor `"b"`, Patch `"c"`. -/
def demoRules : ReleaseRules := mkRules ruleA ruleB ruleC

/-- A commit whose message matches none of the literal grammars used here. -/
def commit0 : Commit := { hash := "h0", message := "zzz", release_action := none }

/-- A commit with message `"y"`. -/
def commitY : Commit := { hash := "hy", message := "y", release_action := none }

/-- A commit with message `"a"`. -/
def commitA : Commit := { hash := "ha", message := "a", release_action := none }

/-- A commit with message `"b"`. -/
def commitB : Commit := { hash := "hb", message := "b", release_action := none }

/-- The frame relation between an input commit and its counterpart after the
aggregation loop: hash and message are unchanged, and `release_action` is
overwritten (once) with the classified level exactly when classification
succeeded, otherwise left as it was. -/
def commitFrame (E : RegexEngine) (R : ReleaseRules) (c cOut : Commit) : Prop :=
  cOut.hash = c.hash ∧ cOut.message = c.message ∧
  cOut.release_action =
    (match execute E c R with
     | some (Except.ok a) => some a
     | _ => c.release_action)

/-- The tail of `execute` that evaluates only the Minor and Patch rules —
what `execute` computes once the Major rule has failed to match. -/
def executeFromMinor (E : RegexEngine) (c : Commit) (rm rp : ReleaseRule) :
    Option (Except CommitAnalyzerError ReleaseAction) :=
  match handle E rm c with
  | none => none
  | some (Except.ok _) => some (Except.ok ReleaseAction.minor)
  | some (Except.error _) =>
    match handle E rp c with
    | none => none
    | some (Except.ok _) => some (Except.ok ReleaseAction.patch)
    | some (Except.error _) => some (Except.error CommitAnalyzerError.errorNoMatching)

/-- A `release_rules` table whose Major key is capitalized. -/
def docCapital : List (String × ReleaseRule) :=
  [("Major", ruleX), ("minor", ruleX), ("patch", ruleX)]

/-! ## Decimal digit lemmas -/

theorem charInj {a b : Char} (h : a.toNat = b.toNat) : a = b :=
  Char.eq_of_val_eq (UInt32.ext h)

theorem digitChar_toNat {d : Nat} (h : d < 10) : (Nat.digitChar d).toNat = 48 + d := by
  have key : ∀ i : Fin 10, (Nat.digitChar i.val).toNat = 48 + i.val := by decide
  exact key ⟨d, h⟩

theorem digitChar_isDigit {d : Nat} (h : d < 10) : isDigitChar (Nat.digitChar d) = true := by
  have key : ∀ i : Fin 10, isDigitChar (Nat.digitChar i.val) = true := by decide
  exact key ⟨d, h⟩

theorem isDigitChar_bounds {c : Char} (h : isDigitChar c = true) :
    48 ≤ c.toNat ∧ c.toNat ≤ 57 := by
  simpa [isDigitChar] using h

theorem digitChar_of_char {c : Char} (h : isDigitChar c = true) :
    Nat.digitChar (c.toNat - 48) = c := by
  obtain ⟨h1, h2⟩ := isDigitChar_bounds h
  apply charInj
  rw [digitChar_toNat (by omega)]
  omega

theorem digitVal_lt {c : Char} (h : isDigitChar c = true) : c.toNat - 48 < 10 := by
  obtain ⟨h1, h2⟩ := isDigitChar_bounds h
  omega

theorem digitVal_pos {c : Char} (h : isDigitChar c = true) (hz : c ≠ '0') :
    1 ≤ c.toNat - 48 := by
  obtain ⟨h1, h2⟩ := isDigitChar_bounds h
  rcases Nat.lt_or_ge 48 c.toNat with hgt | hle
  · omega
  · exfalso
    have h0 : ('0' : Char).toNat = 48 := by decide
    exact hz (charInj (by omega))

/-! ## digitsVal lemmas -/

theorem foldl_digits_init (l : List Char) :
    ∀ a : Nat, l.foldl (fun a c => 10 * a + (c.toNat - 48)) a =
      a * 10 ^ l.length + digitsVal l := by
  induction l with
  | nil => intro a; simp [digitsVal]
  | cons c rest ih =>
    intro a
    show List.foldl _ (10 * a + (c.toNat - 48)) rest = _
    rw [ih (10 * a + (c.toNat - 48))]
    show _ = a * 10 ^ (rest.length + 1) + List.foldl _ (10 * 0 + (c.toNat - 48)) rest
    rw [ih (10 * 0 + (c.toNat - 48))]
    ring

theorem digitsVal_cons (c : Char) (rest : List Char) :
    digitsVal (c :: rest) = (c.toNat - 48) * 10 ^ rest.length + digitsVal rest := by
  show List.foldl _ (10 * 0 + (c.toNat - 48)) rest = _
  rw [foldl_digits_init]
  ring_nf

theorem digitsVal_append (l1 l2 : List Char) :
    digitsVal (l1 ++ l2) = digitsVal l1 * 10 ^ l2.length + digitsVal l2 := by
  show List.foldl _ 0 (l1 ++ l2) = _
  rw [List.foldl_append, foldl_digits_init]
  rfl

theorem digitsVal_singleton (c : Char) : digitsVal [c] = c.toNat - 48 := by
  simp [digitsVal]

theorem digitsVal_pos {d : List Char} {c : Char} {rest : List Char}
    (hd : d = c :: rest) (hdig : isDigitChar c = true) (hz : c ≠ '0') :
    1 ≤ digitsVal d := by
  subst hd
  rw [digitsVal_cons]
  have h1 := digitVal_pos hdig hz
  have h2 : 1 ≤ 10 ^ rest.length := Nat.one_le_pow _ _ (by omega)
  have : 1 * 1 ≤ (c.toNat - 48) * 10 ^ rest.length := Nat.mul_le_mul h1 h2
  omega

/-! ## natToDigits lemmas -/

theorem natToDigitsAux_spec :
    ∀ fuel n, n < fuel →
      natToDigitsAux fuel n ≠ [] ∧
      (natToDigitsAux fuel n).all isDigitChar = true ∧
      digitsVal (natToDigitsAux fuel n) = n ∧
      ((natToDigitsAux fuel n).head? = some '0' → natToDigitsAux fuel n = ['0']) := by
  intro fuel
  induction fuel with
  | zero => intro n h; omega
  | succ fuel ih =>
    intro n hn
    by_cases h10 : n < 10
    · have hrw : natToDigitsAux (fuel + 1) n = [Nat.digitChar n] := by
        simp [natToDigitsAux, h10]
      refine ⟨by simp [hrw], by simp [hrw, digitChar_isDigit h10], ?_, ?_⟩
      · rw [hrw, digitsVal_singleton, digitChar_toNat h10]
        omega
      · intro hh
        rw [hrw] at hh ⊢
        simp at hh
        have : (Nat.digitChar n).toNat = ('0' : Char).toNat := by rw [hh]
        rw [digitChar_toNat h10] at this
        have h0 : ('0' : Char).toNat = 48 := by decide
        have : n = 0 := by omega
        subst this
        rfl
    · have hrw : natToDigitsAux (fuel + 1) n =
          natToDigitsAux fuel (n / 10) ++ [Nat.digitChar (n % 10)] := by
        simp [natToDigitsAux, h10]
      have hdiv : n / 10 < fuel := by
        have h1 : n / 10 < n := Nat.div_lt_self (by omega) (by omega)
        omega
      obtain ⟨hne, hall, hval, hhead⟩ := ih (n / 10) hdiv
      have hmod : n % 10 < 10 := Nat.mod_lt _ (by omega)
      refine ⟨by simp [hrw], ?_, ?_, ?_⟩
      · rw [hrw]
        simp only [List.all_append, hall, Bool.true_and, List.all_cons, List.all_nil,
          Bool.and_true]
        exact digitChar_isDigit hmod
      · rw [hrw, digitsVal_append, hval, digitsVal_singleton, digitChar_toNat hmod]
        simp only [List.length_singleton, pow_one]
        omega
      · intro hh
        exfalso
        rw [hrw] at hh
        cases hds : natToDigitsAux fuel (n / 10) with
        | nil => exact hne hds
        | cons c0 cs =>
          rw [hds] at hh
          simp at hh
          have : natToDigitsAux fuel (n / 10) = ['0'] := by
            apply hhead
            rw [hds, hh]
            rfl
          rw [this] at hval
          have : digitsVal ['0'] = 0 := by decide
          omega

theorem natToDigitsAux_fuel :
    ∀ f1 f2 n, n < f1 → n < f2 → natToDigitsAux f1 n = natToDigitsAux f2 n := by
  intro f1
  induction f1 with
  | zero => intro f2 n h; omega
  | succ f1 ih =>
    intro f2 n h1 h2
    cases f2 with
    | zero => omega
    | succ f2 =>
      by_cases h10 : n < 10
      · simp [natToDigitsAux, h10]
      · have hdiv : n / 10 < n := Nat.div_lt_self (by omega) (by omega)
        simp only [natToDigitsAux, h10, if_false]
        rw [ih f2 (n / 10) (by omega) (by omega)]

theorem natToDigits_spec (n : Nat) :
    natToDigits n ≠ [] ∧ (natToDigits n).all isDigitChar = true ∧
      digitsVal (natToDigits n) = n ∧
      ((natToDigits n).head? = some '0' → natToDigits n = ['0']) :=
  natToDigitsAux_spec (n + 1) n (by omega)

theorem canonicalNum_natToDigits (n : Nat) : canonicalNum (natToDigits n) = true := by
  obtain ⟨hne, hall, hval, hhead⟩ := natToDigits_spec n
  cases hd : natToDigits n with
  | nil => exact absurd hd hne
  | cons c rest =>
    rw [hd] at hall hhead
    simp only [List.all_cons, Bool.and_eq_true] at hall
    simp only [canonicalNum, hall.1, hall.2, Bool.true_and]
    by_cases hz : c = '0'
    · subst hz
      have := hhead (by rfl)
      simp only [List.cons.injEq] at this
      simp [this.2]
    · simp [bne_iff_ne, hz]

theorem canonicalNum_iff (d : List Char) :
    canonicalNum d = true ↔
      d ≠ [] ∧ d.all isDigitChar = true ∧ (d.head? = some '0' → d = ['0']) := by
  cases d with
  | nil => simp [canonicalNum]
  | cons c rest =>
    simp only [canonicalNum, Bool.and_eq_true, Bool.or_eq_true, bne_iff_ne, ne_eq,
      List.all_cons, List.head?_cons, Option.some.injEq, List.cons.injEq]
    constructor
    · rintro ⟨⟨hc, hrest⟩, hz⟩
      refine ⟨by simp, ⟨hc, hrest⟩, ?_⟩
      intro h0
      rcases hz with hz | hz
      · exact absurd h0 hz
      · simp only [List.isEmpty_iff] at hz
        exact ⟨h0, hz⟩
    · rintro ⟨-, ⟨hc, hrest⟩, hz⟩
      refine ⟨⟨hc, hrest⟩, ?_⟩
      by_cases h0 : c = '0'
      · right
        simp only [List.isEmpty_iff]
        exact (hz h0).2
      · left
        simp [h0]

theorem natToDigits_digitsVal :
    ∀ d : List Char, canonicalNum d = true → natToDigits (digitsVal d) = d := by
  intro d
  induction d using List.reverseRecOn with
  | nil => intro h; exact absurd h (by decide)
  | append_singleton ds c ih =>
    intro hcan
    rw [canonicalNum_iff] at hcan
    obtain ⟨-, hall, hhead⟩ := hcan
    simp only [List.all_append, List.all_cons, List.all_nil, Bool.and_eq_true,
      Bool.and_true] at hall
    obtain ⟨hallds, hc⟩ := hall
    rw [digitsVal_append, digitsVal_singleton]
    simp only [List.length_singleton, pow_one]
    by_cases hds0 : ds = []
    · subst hds0
      simp only [digitsVal, List.foldl_nil, Nat.zero_mul, Nat.zero_add, List.nil_append]
      have hlt := digitVal_lt hc
      show natToDigitsAux (c.toNat - 48 + 1) (c.toNat - 48) = [c]
      simp only [natToDigitsAux, hlt, if_true]
      rw [digitChar_of_char hc]
    · obtain ⟨c0, rest, hds⟩ := List.exists_cons_of_ne_nil hds0
      have hc0dig : isDigitChar c0 = true := by
        rw [hds] at hallds
        simp only [List.all_cons, Bool.and_eq_true] at hallds
        exact hallds.1
      have hc0 : c0 ≠ '0' := by
        intro h0
        have hh : (ds ++ [c]).head? = some '0' := by rw [hds, h0]; rfl
        have heq := hhead hh
        have hlen : (ds ++ [c]).length = 1 := by rw [heq]; rfl
        rw [hds] at hlen
        simp at hlen
      have hm : 1 ≤ digitsVal ds := digitsVal_pos hds hc0dig hc0
      have hcands : canonicalNum ds = true := by
        rw [canonicalNum_iff]
        refine ⟨hds0, hallds, ?_⟩
        intro h0
        rw [hds] at h0
        simp only [List.head?_cons, Option.some.injEq] at h0
        exact absurd h0 hc0
      have ihds := ih hcands
      have hv : c.toNat - 48 < 10 := digitVal_lt hc
      set m := digitsVal ds with hmdef
      set v := c.toNat - 48 with hvdef
      have hge : 10 ≤ m * 10 + v := by omega
      show natToDigitsAux (m * 10 + v + 1) (m * 10 + v) = ds ++ [c]
      have h10 : ¬ (m * 10 + v < 10) := by omega
      simp only [natToDigitsAux, h10, if_false]
      have hdivq : (m * 10 + v) / 10 = m := by omega
      have hmodq : (m * 10 + v) % 10 = v := by omega
      rw [hdivq, hmodq]
      have hfuel : natToDigitsAux (m * 10 + v) m = natToDigitsAux (m + 1) m := by
        apply natToDigitsAux_fuel
        · omega
        · omega
      rw [hfuel]
      show natToDigits m ++ [Nat.digitChar v] = ds ++ [c]
      rw [ihds, hvdef, digitChar_of_char hc]

/-! ## Matching the rendered tag -/

theorem takeWhile_digits_append (D : List Char) (r : List Char)
    (hD : D.all isDigitChar = true) :
    (D ++ '.' :: r).takeWhile isDigitChar = D := by
  induction D with
  | nil =>
    have hdot : isDigitChar '.' = false := by decide
    simp [List.takeWhile_cons, hdot]
  | cons c cs ih =>
    simp only [List.all_cons, Bool.and_eq_true] at hD
    simp only [List.cons_append, List.takeWhile_cons, hD.1, if_true]
    rw [ih hD.2]

theorem downFrom_pos (f : Nat → Option α) (k : Nat) (v : α)
    (hk : 0 < k) (h : f k = some v) : downFrom f k = some v := by
  cases k with
  | zero => omega
  | succ k => simp [downFrom, h]

theorem patchSeg_all (d : List Char) (hne : d ≠ []) (hall : d.all isDigitChar = true) :
    patchSeg d = some d := by
  simp [patchSeg, hne, hall]

theorem minorSeg_render (d2 d3 : List Char)
    (h2ne : d2 ≠ []) (h2 : d2.all isDigitChar = true)
    (h3ne : d3 ≠ []) (h3 : d3.all isDigitChar = true) :
    minorSeg (d2 ++ '.' :: d3) = some (d2, d3) := by
  unfold minorSeg
  rw [takeWhile_digits_append d2 d3 h2]
  apply downFrom_pos
  · cases d2 with
    | nil => exact absurd rfl h2ne
    | cons c cs => simp
  · rw [List.drop_left, List.take_left]
    simp only [ne_eq, reduceCtorEq, not_false_eq_true, if_true]
    rw [patchSeg_all d3 h3ne h3]
    rfl

theorem majorSeg_render (d1 d2 d3 : List Char)
    (h1ne : d1 ≠ []) (h1 : d1.all isDigitChar = true)
    (h2ne : d2 ≠ []) (h2 : d2.all isDigitChar = true)
    (h3ne : d3 ≠ []) (h3 : d3.all isDigitChar = true) :
    majorSeg (d1 ++ '.' :: d2 ++ '.' :: d3) = some (d1, d2, d3) := by
  unfold majorSeg
  rw [show d1 ++ '.' :: d2 ++ '.' :: d3 = d1 ++ '.' :: (d2 ++ '.' :: d3) by simp]
  rw [takeWhile_digits_append d1 _ h1]
  apply downFrom_pos
  · cases d1 with
    | nil => exact absurd rfl h1ne
    | cons c cs => simp
  · rw [List.drop_left, List.take_left]
    simp only [ne_eq, reduceCtorEq, not_false_eq_true, if_true]
    rw [minorSeg_render d2 d3 h2ne h2 h3ne h3]
    rfl

theorem tagCaptures_canonical (d1 d2 d3 : List Char)
    (h1ne : d1 ≠ []) (h1 : d1.all isDigitChar = true)
    (h2ne : d2 ≠ []) (h2 : d2.all isDigitChar = true)
    (h3ne : d3 ≠ []) (h3 : d3.all isDigitChar = true) :
    tagCaptures ('v' :: d1 ++ '.' :: d2 ++ '.' :: d3) = some (d1, d2, d3) := by
  show majorSeg (d1 ++ '.' :: d2 ++ '.' :: d3) = some (d1, d2, d3)
  exact majorSeg_render d1 d2 d3 h1ne h1 h2ne h2 h3ne h3

/-! ## Versioner claims -/

/-- Claim C4: for every valid canonical tag string `s` (shape
`v<major>.<minor>.<patch>`, no leading zeros, each segment a valid `u64`),
`Tag::try_from` succeeds and the `Display` rendering of the parsed tag is
exactly `s`: `render(parse(s)) = s`. -/
theorem C4_round_trip (s : List Char) (h : CanonicalTagStr s) :
    ∃ t : Tag, tagTryFrom s = Except.ok t ∧ tagRender t = s := by
  obtain ⟨d1, d2, d3, hc1, hc2, hc3, hb1, hb2, hb3, hs⟩ := h
  obtain ⟨h1ne, h1all, -⟩ := (canonicalNum_iff d1).mp hc1
  obtain ⟨h2ne, h2all, -⟩ := (canonicalNum_iff d2).mp hc2
  obtain ⟨h3ne, h3all, -⟩ := (canonicalNum_iff d3).mp hc3
  refine ⟨{ major := digitsVal d1, minor := digitsVal d2, patch := digitsVal d3 }, ?_, ?_⟩
  · rw [hs]
    unfold tagTryFrom
    rw [tagCaptures_canonical d1 d2 d3 h1ne h1all h2ne h2all h3ne h3all]
    simp only [parseU64, hb1, hb2, hb3, if_true]
  · rw [hs]
    show 'v' :: natToDigits (digitsVal d1) ++ '.' :: natToDigits (digitsVal d2) ++
      '.' :: natToDigits (digitsVal d3) = _
    rw [natToDigits_digitsVal d1 hc1, natToDigits_digitsVal d2 hc2, natToDigits_digitsVal d3 hc3]

/-- Claim C4 witness: the round trip at the concrete canonical tag `"v3.2.1"`. -/
theorem C4_round_trip_witness :
    ∃ t : Tag, tagTryFrom (strL "v3.2.1") = Except.ok t ∧ tagRender t = strL "v3.2.1" :=
  C4_round_trip (strL "v3.2.1")
    ⟨['3'], ['2'], ['1'], by decide, by decide, by decide, by decide, by decide, by decide,
      by decide⟩

/-- Claim C2, evaluation at the failing input: the string `"v1a2b3"` does not
have the spec's shape `^v\d+\.\d+\.\d+$` (with literal dots), yet
`Tag::try_from` accepts it as `{1, 2, 3}` because the dots of the source's
regular expression are unescaped and match any character.  The claim's two
scenario points do hold: `"v3.1"` is rejected with the shape-mismatch error
and `"v3.2.1"` parses as `{3, 2, 1}`; overflow of a captured segment is the
distinct parsing error. -/
theorem C2_bug_eval :
    tagShapeSpec (strL "v1a2b3") = false ∧
    tagTryFrom (strL "v1a2b3") = Except.ok { major := 1, minor := 2, patch := 3 } ∧
    tagTryFrom (strL "v3.1") = Except.error (VersionerError.errorNoMatch "regex") ∧
    tagTryFrom (strL "v3.2.1") = Except.ok { major := 3, minor := 2, patch := 1 } ∧
    tagTryFrom (strL "v18446744073709551616.0.0") = Except.error VersionerError.parsingError := by
  decide

/-- Claim C5, counterexample: at `t.major = u64::MAX` the Rust `+= 1`
overflows, so the result is not `{major: t.major + 1, minor: 0, patch: 0}` —
the wrap-around gives `{0, 0, 0}` (a debug build panics instead; either way
the claimed formula fails). -/
theorem C5_counterexample :
    increment { major := u64Size - 1, minor := 5, patch := 7 } ReleaseAction.major ≠
      { major := (u64Size - 1) + 1, minor := 0, patch := 0 } ∧
    increment { major := u64Size - 1, minor := 5, patch := 7 } ReleaseAction.major =
      { major := 0, minor := 0, patch := 0 } := by
  decide

/-- Claim C5 as amended: `increment` is a pure total function; whenever the
incremented component stays below `u64::MAX` the claimed component formulas
hold exactly, and the reset laws (`Major` zeroes minor and patch, `Minor`
zeroes patch) hold unconditionally. -/
theorem C5_increment_formulas (t : Tag) :
    (t.major + 1 < u64Size →
      increment t ReleaseAction.major = { major := t.major + 1, minor := 0, patch := 0 }) ∧
    (t.minor + 1 < u64Size →
      increment t ReleaseAction.minor = { major := t.major, minor := t.minor + 1, patch := 0 }) ∧
    (t.patch + 1 < u64Size →
      increment t ReleaseAction.patch = { major := t.major, minor := t.minor, patch := t.patch + 1 }) ∧
    (increment t ReleaseAction.major).minor = 0 ∧
    (increment t ReleaseAction.major).patch = 0 ∧
    (increment t ReleaseAction.minor).patch = 0 := by
  refine ⟨fun h => ?_, fun h => ?_, fun h => ?_, rfl, rfl, rfl⟩
  · simp [increment, Nat.mod_eq_of_lt h]
  · simp [increment, Nat.mod_eq_of_lt h]
  · simp [increment, Nat.mod_eq_of_lt h]

/-- Claim C5 witness: the spec's Scenario C, `v3.2.1` incremented by `Minor`
gives `v3.3.0`. -/
theorem C5_increment_formulas_witness :
    increment { major := 3, minor := 2, patch := 1 } ReleaseAction.minor =
      { major := 3, minor := 3, patch := 0 } := by
  have h := (C5_increment_formulas { major := 3, minor := 2, patch := 1 }).2.1 (by decide)
  exact h

/-- Claim C6, counterexample: at `major = u64::MAX` a `Major` increment wraps
to `v0.0.0`, which is not lexicographically greater than the input tag. -/
theorem C6_counterexample :
    ¬ tagLt { major := u64Size - 1, minor := 0, patch := 0 }
        (increment { major := u64Size - 1, minor := 0, patch := 0 } ReleaseAction.major) := by
  decide

/-- Claim C6 as amended: whenever the component selected by the release level
is below `u64::MAX`, the incremented tag is strictly greater than the input
in the lexicographic `(major, minor, patch)` order. -/
theorem C6_increment_monotone (t : Tag) (a : ReleaseAction)
    (h : levelComponent t a + 1 < u64Size) : tagLt t (increment t a) := by
  cases a with
  | major =>
    left
    have h2 : t.major + 1 < u64Size := h
    show t.major < (t.major + 1) % u64Size
    rw [Nat.mod_eq_of_lt h2]
    omega
  | minor =>
    right
    refine ⟨rfl, ?_⟩
    left
    have h2 : t.minor + 1 < u64Size := h
    show t.minor < (t.minor + 1) % u64Size
    rw [Nat.mod_eq_of_lt h2]
    omega
  | patch =>
    right
    refine ⟨rfl, ?_⟩
    right
    refine ⟨rfl, ?_⟩
    have h2 : t.patch + 1 < u64Size := h
    show t.patch < (t.patch + 1) % u64Size
    rw [Nat.mod_eq_of_lt h2]
    omega

/-- Claim C6 witness: `v3.2.1 < increment(v3.2.1, Minor)`. -/
theorem C6_increment_monotone_witness :
    tagLt { major := 3, minor := 2, patch := 1 }
      (increment { major := 3, minor := 2, patch := 1 } ReleaseAction.minor) :=
  C6_increment_monotone { major := 3, minor := 2, patch := 1 } ReleaseAction.minor (by decide)

/-! ## Analyzer lemmas -/

theorem handle_isSome_of_regex (E : RegexEngine) (rule : ReleaseRule) (c : Commit)
    (h : rule.format = ReleaseRuleFormat.regex) : (handle E rule c).isSome = true := by
  unfold handle
  rw [h]
  by_cases h1 : E.compiles rule.grammar
  · by_cases h2 : E.isMatch rule.grammar c.message
    · simp [h1, h2]
    · simp [h1, h2]
  · simp [h1]

theorem execute_isSome_of_regex (E : RegexEngine) (R : ReleaseRules) (c : Commit)
    (h : ∀ a, (R a).format = ReleaseRuleFormat.regex) : (execute E c R).isSome = true := by
  unfold execute
  obtain ⟨xM, hM⟩ :=
    Option.isSome_iff_exists.mp (handle_isSome_of_regex E _ c (h ReleaseAction.major))
  rw [hM]
  cases xM with
  | ok u => simp
  | error eM =>
    obtain ⟨xm, hm⟩ :=
      Option.isSome_iff_exists.mp (handle_isSome_of_regex E _ c (h ReleaseAction.minor))
    rw [hm]
    cases xm with
    | ok u => simp
    | error em =>
      obtain ⟨xp, hp⟩ :=
        Option.isSome_iff_exists.mp (handle_isSome_of_regex E _ c (h ReleaseAction.patch))
      rw [hp]
      cases xp with
      | ok u => simp
      | error ep => simp

theorem runLoop_some_spec (E : RegexEngine) (R : ReleaseRules) :
    ∀ (cs : List Commit) (cM cm cp : Nat) (out : List Commit),
      runLoop E R cs = some (cM, cm, cp, out) →
      cM = cs.countP (fun c => execute E c R == some (Except.ok ReleaseAction.major)) ∧
      cm = cs.countP (fun c => execute E c R == some (Except.ok ReleaseAction.minor)) ∧
      cp = cs.countP (fun c => execute E c R == some (Except.ok ReleaseAction.patch)) ∧
      out = cs.map (annotateCommit E R) := by
  intro cs
  induction cs with
  | nil =>
    intro cM cm cp out hmain
    simp only [runLoop, Option.some.injEq, Prod.mk.injEq] at hmain
    obtain ⟨h1, h2, h3, h4⟩ := hmain
    simp [h1.symm, h2.symm, h3.symm, h4.symm]
  | cons c rest ih =>
    intro cM cm cp out hmain
    simp only [runLoop] at hmain
    cases hE : execute E c R with
    | none => rw [hE] at hmain; exact absurd hmain (by simp)
    | some r =>
      rw [hE] at hmain
      cases hR : runLoop E R rest with
      | none =>
        rw [hR] at hmain
        rcases r with u | a
        · exact absurd hmain (by simp)
        · cases a <;> exact absurd hmain (by simp)
      | some quad =>
        rw [hR] at hmain
        obtain ⟨M0, m0, p0, out0⟩ := quad
        obtain ⟨hM0, hm0, hp0, hout0⟩ := ih M0 m0 p0 out0 hR
        rcases r with u | a
        · simp only [Option.some.injEq, Prod.mk.injEq] at hmain
          obtain ⟨h1, h2, h3, h4⟩ := hmain
          subst h1; subst h2; subst h3; subst h4
          refine ⟨?_, ?_, ?_, ?_⟩
          · rw [hM0, List.countP_cons]; simp [hE]
          · rw [hm0, List.countP_cons]; simp [hE]
          · rw [hp0, List.countP_cons]; simp [hE]
          · rw [hout0, List.map_cons]
            simp [annotateCommit, hE]
        · cases a <;>
          · simp only [Option.some.injEq, Prod.mk.injEq] at hmain
            obtain ⟨h1, h2, h3, h4⟩ := hmain
            subst h1; subst h2; subst h3; subst h4
            refine ⟨?_, ?_, ?_, ?_⟩
            · rw [hM0, List.countP_cons]; simp [hE]
            · rw [hm0, List.countP_cons]; simp [hE]
            · rw [hp0, List.countP_cons]; simp [hE]
            · rw [hout0, List.map_cons]
              simp [annotateCommit, hE]

theorem runLoop_isSome_of_regex (E : RegexEngine) (R : ReleaseRules)
    (h : ∀ a, (R a).format = ReleaseRuleFormat.regex) :
    ∀ cs : List Commit, (runLoop E R cs).isSome = true := by
  intro cs
  induction cs with
  | nil => simp [runLoop]
  | cons c rest ih =>
    obtain ⟨r, hr⟩ := Option.isSome_iff_exists.mp (execute_isSome_of_regex E R c h)
    obtain ⟨quad, hq⟩ := Option.isSome_iff_exists.mp ih
    obtain ⟨M0, m0, p0, out0⟩ := quad
    rw [runLoop, hr, hq]
    rcases r with e | a
    · simp
    · cases a <;> simp

theorem countP_pos_iff_any (p : Commit → Bool) (cs : List Commit) :
    0 < cs.countP p ↔ cs.any p = true := by
  rw [List.countP_pos_iff, List.any_eq_true]

theorem run_spec_of_regex (E : RegexEngine) (R : ReleaseRules)
    (h : ∀ a, (R a).format = ReleaseRuleFormat.regex) (cs : List Commit) :
    run E R (some cs) =
      some (Except.ok (specDecision E R cs, cs.map (annotateCommit E R))) := by
  obtain ⟨quad, hq⟩ := Option.isSome_iff_exists.mp (runLoop_isSome_of_regex E R h cs)
  obtain ⟨M0, m0, p0, out0⟩ := quad
  obtain ⟨hM, hm, hp, hout⟩ := runLoop_some_spec E R cs M0 m0 p0 out0 hq
  simp only [run]
  rw [hq]
  subst hout
  subst hM
  subst hm
  subst hp
  simp only [specDecision, gt_iff_lt, countP_pos_iff_any]

/-! ## Concrete rule sets and commits for closed statements -/

/-! ## Aggregation claims -/

/-- Claim C1, counterexample: with a rule set whose rules use the `Peg`
format and a single commit, `run` panics (`unimplemented!()` reached through
`execute`) instead of returning the decision the claim prescribes for a
batch with no classifying commit (`Ok(None)`). -/
theorem C1_counterexample :
    run specimenEngine pegOnlyRules (some [commit0]) = none ∧
    specDecision specimenEngine pegOnlyRules [commit0] = none := by
  decide

/-- Claim C1 as amended: for every regex engine, every rule set whose three
rules use the `Regex` format, and every commit collection, `run` returns
`Ok` of exactly the spec's precedence decision — `Major` if some commit
classifies as Major, else `Minor` if some classifies as Minor, else `Patch`
if some classifies as Patch, else `None` (in particular on an empty or fully
unmatched collection) — and the decision depends only on which levels occur,
not on order or multiplicity: it is invariant under permutation of the
collection. -/
theorem C1_aggregate_decision (E : RegexEngine) (R : ReleaseRules)
    (cs csPerm : List Commit)
    (hreg : ∀ a, (R a).format = ReleaseRuleFormat.regex)
    (hperm : cs.Perm csPerm) :
    (∃ out, run E R (some cs) = some (Except.ok (specDecision E R cs, out))) ∧
    specDecision E R cs = specDecision E R csPerm := by
  constructor
  · exact ⟨cs.map (annotateCommit E R), run_spec_of_regex E R hreg cs⟩
  · have hany : ∀ p : Commit → Bool, cs.any p = csPerm.any p := by
      intro p
      cases hcs : cs.any p with
      | true =>
        rw [List.any_eq_true] at hcs
        obtain ⟨c, hc, hpc⟩ := hcs
        have : csPerm.any p = true :=
          List.any_eq_true.mpr ⟨c, hperm.mem_iff.mp hc, hpc⟩
        rw [this]
      | false =>
        cases hcsp : csPerm.any p with
        | true =>
          rw [List.any_eq_true] at hcsp
          obtain ⟨c, hc, hpc⟩ := hcsp
          have : cs.any p = true :=
            List.any_eq_true.mpr ⟨c, hperm.mem_iff.mpr hc, hpc⟩
          rw [this] at hcs
          exact absurd hcs (by simp)
        | false => rfl
    simp only [specDecision, hany]

/-- Claim C1 witness: the amended claim at a concrete two-commit batch (one
Minor match, one unmatched commit) and its transposition. -/
theorem C1_aggregate_decision_witness :
    (∃ out, run specimenEngine demoRules (some [commitB, commit0]) =
      some (Except.ok (specDecision specimenEngine demoRules [commitB, commit0], out))) ∧
    specDecision specimenEngine demoRules [commitB, commit0] =
      specDecision specimenEngine demoRules [commit0, commitB] :=
  C1_aggregate_decision specimenEngine demoRules [commitB, commit0] [commit0, commitB]
    (by intro a; cases a <;> rfl) (List.Perm.swap commit0 commitB [])

/-- Claim C3, counterexample: a genuine classification fault — the Major
grammar `"("` fails to compile — does not abort aggregation: `run` returns
`Ok(None)` for the batch, silently treating the faulting rule as a
non-match, and returns no error. -/
theorem C3_counterexample :
    handle specimenEngine (faultRules ReleaseAction.major) commitY =
      some (Except.error ConfigurationError.regexError) ∧
    run specimenEngine faultRules (some [commitY]) =
      some (Except.ok (none, [commitY])) := by
  decide

/-- Claim C3 as amended: classification faults do not abort the batch.  For
every rule set whose rules use the `Regex` format — malformed grammars
included — `run` on a present commit list always returns `Ok`; its only
error is `InvalidContext` when the context holds no commit list.  (Selecting
the unimplemented `Peg` format panics instead of returning an error.) -/
theorem C3_faults_not_fatal (E : RegexEngine) (R : ReleaseRules) (cs : List Commit)
    (hreg : ∀ a, (R a).format = ReleaseRuleFormat.regex) :
    (∃ res, run E R (some cs) = some (Except.ok res)) ∧
    run E R none =
      some (Except.error (CommitAnalyzerError.invalidContext "No commits found.")) := by
  exact ⟨⟨(specDecision E R cs, cs.map (annotateCommit E R)), run_spec_of_regex E R hreg cs⟩, rfl⟩

/-- Claim C3 witness: the amended claim at the malformed-grammar rule set. -/
theorem C3_faults_not_fatal_witness :
    (∃ res, run specimenEngine faultRules (some [commitY]) = some (Except.ok res)) ∧
    run specimenEngine faultRules none =
      some (Except.error (CommitAnalyzerError.invalidContext "No commits found.")) :=
  C3_faults_not_fatal specimenEngine faultRules [commitY] (by intro a; cases a <;> rfl)

/-- Claim C7, counterexample: with a rule set whose rules use the `Peg`
format, no rule matches the commit, yet `execute` does not return the
no-match outcome — it panics (`unimplemented!()`). -/
theorem C7_counterexample :
    handle specimenEngine (pegOnlyRules ReleaseAction.major) commit0 = none ∧
    handle specimenEngine (pegOnlyRules ReleaseAction.minor) commit0 = none ∧
    handle specimenEngine (pegOnlyRules ReleaseAction.patch) commit0 = none ∧
    execute specimenEngine commit0 pegOnlyRules = none ∧
    execute specimenEngine commit0 pegOnlyRules ≠
      some (Except.error CommitAnalyzerError.errorNoMatching) := by
  decide

/-- Claim C7 as amended: `execute` evaluates Major, Minor, Patch in that
fixed order, each short-circuiting on its first match — when the Major rule
matches, the result is `Major` whatever the lower rules are (they are not
evaluated, even a panicking `Peg` rule below cannot interfere) — and when
every rule's evaluation completes without a match (any error outcome), the
result is the `ErrorNoMatching` outcome, an ordinary value of the result
type.  If an evaluated rule panics (`Peg`), `execute` panics instead. -/
theorem C7_execute_order (E : RegexEngine) (rM rm rp : ReleaseRule) (c : Commit) :
    (handle E rM c = some (Except.ok ()) →
      execute E c (mkRules rM rm rp) = some (Except.ok ReleaseAction.major)) ∧
    (∀ eM, handle E rM c = some (Except.error eM) →
      handle E rm c = some (Except.ok ()) →
      execute E c (mkRules rM rm rp) = some (Except.ok ReleaseAction.minor)) ∧
    (∀ eM em, handle E rM c = some (Except.error eM) →
      handle E rm c = some (Except.error em) →
      handle E rp c = some (Except.ok ()) →
      execute E c (mkRules rM rm rp) = some (Except.ok ReleaseAction.patch)) ∧
    (∀ eM em ep, handle E rM c = some (Except.error eM) →
      handle E rm c = some (Except.error em) →
      handle E rp c = some (Except.error ep) →
      execute E c (mkRules rM rm rp) =
        some (Except.error CommitAnalyzerError.errorNoMatching)) := by
  refine ⟨?_, ?_, ?_, ?_⟩
  · intro hM
    simp only [execute, mkRules, hM]
  · intro eM hM hm
    simp only [execute, mkRules, hM, hm]
  · intro eM em hM hm hp
    simp only [execute, mkRules, hM, hm, hp]
  · intro eM em ep hM hm hp
    simp only [execute, mkRules, hM, hm, hp]

/-- Claim C7 witness: a matching Major rule short-circuits — the lower rules
here are panicking `Peg` rules, yet `execute` returns `Major`. -/
theorem C7_execute_order_witness :
    execute specimenEngine commitA (mkRules ruleA pegRule pegRule) =
      some (Except.ok ReleaseAction.major) :=
  (C7_execute_order specimenEngine ruleA pegRule pegRule commitA).1 (by decide)

/-! ## Frame claims -/

/-- Claim C9: whenever the aggregation loop completes, the output commits
correspond one to one with the inputs — hash and message unchanged,
`release_action` written (with the classified level) exactly for the commits
whose message classifies and untouched otherwise.  Moreover, if no commit
classifies and every `release_action` starts unset, `run` returns `Ok(None)`
and every output `release_action` is still unset. -/
theorem C9_frame (E : RegexEngine) (R : ReleaseRules) (cs : List Commit)
    (cM cm cp : Nat) (out : List Commit)
    (h : runLoop E R cs = some (cM, cm, cp, out)) :
    List.Forall₂ (commitFrame E R) cs out ∧
    ((∀ c ∈ cs, ∀ a : ReleaseAction, execute E c R ≠ some (Except.ok a)) →
      (∀ c ∈ cs, c.release_action = none) →
      run E R (some cs) = some (Except.ok (none, out)) ∧
      ∀ cOut ∈ out, cOut.release_action = none) := by
  obtain ⟨hM, hm, hp, hout⟩ := runLoop_some_spec E R cs cM cm cp out h
  constructor
  · rw [hout, List.forall₂_map_right_iff]
    rw [List.forall₂_same]
    intro c hc
    unfold commitFrame annotateCommit
    cases hE : execute E c R with
    | none => exact ⟨rfl, rfl, rfl⟩
    | some r =>
      rcases r with e | a
      · exact ⟨rfl, rfl, rfl⟩
      · exact ⟨rfl, rfl, rfl⟩
  · intro hno hunset
    have hzM : cs.countP (fun c => execute E c R == some (Except.ok ReleaseAction.major)) = 0 := by
      rw [List.countP_eq_zero]
      intro c hc
      simp only [beq_iff_eq]
      exact hno c hc ReleaseAction.major
    have hzm : cs.countP (fun c => execute E c R == some (Except.ok ReleaseAction.minor)) = 0 := by
      rw [List.countP_eq_zero]
      intro c hc
      simp only [beq_iff_eq]
      exact hno c hc ReleaseAction.minor
    have hzp : cs.countP (fun c => execute E c R == some (Except.ok ReleaseAction.patch)) = 0 := by
      rw [List.countP_eq_zero]
      intro c hc
      simp only [beq_iff_eq]
      exact hno c hc ReleaseAction.patch
    constructor
    · simp only [run]
      rw [h]
      subst hM
      subst hm
      subst hp
      simp [hzM, hzm, hzp]
    · intro cOut hmem
      rw [hout] at hmem
      obtain ⟨c, hc, hceq⟩ := List.mem_map.mp hmem
      have : annotateCommit E R c = c := by
        unfold annotateCommit
        cases hE : execute E c R with
        | none => rfl
        | some r =>
          rcases r with e | a
          · rfl
          · exact absurd hE (hno c hc a)
      rw [← hceq, this]
      exact hunset c hc

/-- Claim C9 witness: the frame relation and the no-match invariant at a
concrete batch (one Minor-matching commit, one unmatched commit). -/
theorem C9_frame_witness :
    List.Forall₂ (commitFrame specimenEngine demoRules) [commitB, commit0]
      [{ hash := "hb", message := "b", release_action := some ReleaseAction.minor }, commit0] ∧
    ((∀ c ∈ [commitB, commit0], ∀ a : ReleaseAction,
        execute specimenEngine c demoRules ≠ some (Except.ok a)) →
      (∀ c ∈ [commitB, commit0], c.release_action = none) →
      run specimenEngine demoRules (some [commitB, commit0]) =
        some (Except.ok (none,
          [{ hash := "hb", message := "b", release_action := some ReleaseAction.minor },
            commit0])) ∧
      ∀ cOut ∈ [{ hash := "hb", message := "b", release_action := some ReleaseAction.minor },
          commit0], cOut.release_action = none) :=
  C9_frame specimenEngine demoRules [commitB, commit0] 0 1 0
    [{ hash := "hb", message := "b", release_action := some ReleaseAction.minor }, commit0]
    (by decide)

/-! ## Error-as-non-match claim -/

/-- Claim C10: a Major rule whose evaluation returns an error — any error,
a regex-compilation failure included — behaves exactly like a non-matching
rule: `execute` falls through to the Minor/Patch chain, and its result is
the same as with any other erroring Major rule in that position (in
particular a plain non-matching one). -/
theorem C10_error_is_nonmatch (E : RegexEngine) (rM rM2 rm rp : ReleaseRule) (c : Commit)
    (e e2 : ConfigurationError)
    (h : handle E rM c = some (Except.error e))
    (h2 : handle E rM2 c = some (Except.error e2)) :
    execute E c (mkRules rM rm rp) = executeFromMinor E c rm rp ∧
    execute E c (mkRules rM rm rp) = execute E c (mkRules rM2 rm rp) := by
  constructor
  · simp only [execute, executeFromMinor, mkRules, h]
  · simp only [execute, mkRules, h, h2]

/-- Claim C10 witness: the Major grammar `"("` fails to compile
(`RegexError`), and `execute` behaves exactly as with a non-matching Major
rule, classifying the commit at the lower Minor level. -/
theorem C10_error_is_nonmatch_witness :
    execute specimenEngine commitY (mkRules ruleParen ruleY ruleX) =
      executeFromMinor specimenEngine commitY ruleY ruleX ∧
    execute specimenEngine commitY (mkRules ruleParen ruleY ruleX) =
      execute specimenEngine commitY (mkRules ruleX ruleY ruleX) :=
  C10_error_is_nonmatch specimenEngine ruleParen ruleX ruleY ruleX commitY
    ConfigurationError.regexError ConfigurationError.errorNoMatch (by decide) (by decide)

/-! ## Rule-set loading lemmas -/

theorem deserializeKey_eq_some_iff (k : String) (a : ReleaseAction) :
    deserializeKey k = some a ↔
      (a = ReleaseAction.major ∧ k = "major") ∨
      (a = ReleaseAction.minor ∧ k = "minor") ∨
      (a = ReleaseAction.patch ∧ k = "patch") := by
  unfold deserializeKey
  split_ifs with h1 h2 h3
  · subst h1
    cases a <;> simp
  · subst h2
    cases a <;> simp_all
  · subst h3
    cases a <;> simp_all
  · cases a <;> simp_all

theorem deserializeRules_ok_of_valid :
    ∀ doc : List (String × ReleaseRule),
      (∀ k ∈ doc.map Prod.fst, (deserializeKey k).isSome = true) →
      ∃ rules, deserializeRules doc = Except.ok rules := by
  intro doc
  induction doc with
  | nil => intro h; exact ⟨[], rfl⟩
  | cons p rest ih =>
    intro h
    obtain ⟨k, r⟩ := p
    have hk : (deserializeKey k).isSome = true := h k (by simp)
    obtain ⟨a, ha⟩ := Option.isSome_iff_exists.mp hk
    obtain ⟨t, ht⟩ := ih (fun k2 hk2 => h k2 (by simp [hk2]))
    refine ⟨(a, r) :: t, ?_⟩
    simp only [deserializeRules, ha, ht]

theorem lookupRule_deserialized :
    ∀ (doc : List (String × ReleaseRule)) (rules : List (ReleaseAction × ReleaseRule)),
      deserializeRules doc = Except.ok rules →
      ∀ a, (lookupRule rules a).isSome =
        doc.any (fun p => deserializeKey p.1 == some a) := by
  intro doc
  induction doc with
  | nil =>
    intro rules h a
    simp only [deserializeRules, Except.ok.injEq] at h
    subst h
    rfl
  | cons p rest ih =>
    intro rules h a
    obtain ⟨k, r⟩ := p
    simp only [deserializeRules] at h
    cases hk : deserializeKey k with
    | none => rw [hk] at h; exact absurd h (by simp)
    | some a0 =>
      rw [hk] at h
      cases hrest : deserializeRules rest with
      | error e => rw [hrest] at h; exact absurd h (by simp)
      | ok t =>
        rw [hrest] at h
        simp only [Except.ok.injEq] at h
        subst h
        simp only [List.any_cons, hk]
        by_cases haa : a0 = a
        · subst haa
          simp only [lookupRule, List.find?_cons, beq_self_eq_true]
          simp
        · have hbeq : (a0 == a) = false := by simp [haa]
          simp only [lookupRule, List.find?_cons]
          simp only [hbeq]
          rw [show ((some a0 == some a) = false) from by simp [haa]]
          simp only [Bool.false_or]
          exact ih t hrest a

theorem deserializeRules_capital_err (r : ReleaseRule) (doc2 : List (String × ReleaseRule)) :
    ∀ doc1 : List (String × ReleaseRule),
      (∀ k ∈ doc1.map Prod.fst, (deserializeKey k).isSome = true) →
      deserializeRules (doc1 ++ ("Major", r) :: doc2) =
        Except.error (ConfigurationError.errorReadingToml "Major") := by
  intro doc1
  induction doc1 with
  | nil =>
    intro h
    have : deserializeKey "Major" = none := by decide
    simp only [List.nil_append, deserializeRules, this]
  | cons p rest ih =>
    intro h
    obtain ⟨k, r0⟩ := p
    have hk : (deserializeKey k).isSome = true := h k (by simp)
    obtain ⟨a, ha⟩ := Option.isSome_iff_exists.mp hk
    have hrest := ih (fun k2 hk2 => h k2 (by simp [hk2]))
    simp only [List.cons_append, deserializeRules, ha, List.append_eq, hrest]

/-! ## Rule-set loading claims -/

/-- Claim C8, counterexample: a document with the capitalized key `Major`
instead of `major` does not fail with the missing-level error naming
`major`; deserialization itself fails first with the unknown-variant TOML
error for the key `Major`. -/
theorem C8_counterexample :
    tryParse docCapital = Except.error (ConfigurationError.errorReadingToml "Major") ∧
    tryParse docCapital ≠
      Except.error (ConfigurationError.incorrectReleaseAction "major is missing") := by
  decide

/-- Claim C8 as amended: when every key of the `release_rules` table
deserializes, `try_parse` fails with the missing-release-level error naming
the absent level — `major` first, then `minor`, then `patch`, in the source's
check order; level keys are case-sensitive, but a document containing the
capitalized key `Major` (after any well-formed keys) fails earlier, with the
TOML unknown-variant deserialization error for `Major`, not with the
missing-level error. -/
theorem C8_missing_level (doc : List (String × ReleaseRule)) :
    ((∀ k ∈ doc.map Prod.fst, (deserializeKey k).isSome = true) →
      ((doc.all (fun p => p.1 != "major") = true →
        tryParse doc =
          Except.error (ConfigurationError.incorrectReleaseAction "major is missing")) ∧
       (doc.any (fun p => p.1 == "major") = true →
        doc.all (fun p => p.1 != "minor") = true →
        tryParse doc =
          Except.error (ConfigurationError.incorrectReleaseAction "minor is missing")) ∧
       (doc.any (fun p => p.1 == "major") = true →
        doc.any (fun p => p.1 == "minor") = true →
        doc.all (fun p => p.1 != "patch") = true →
        tryParse doc =
          Except.error (ConfigurationError.incorrectReleaseAction "patch is missing")))) ∧
    (∀ (doc1 doc2 : List (String × ReleaseRule)) (r : ReleaseRule),
      doc = doc1 ++ ("Major", r) :: doc2 →
      (∀ k ∈ doc1.map Prod.fst, (deserializeKey k).isSome = true) →
      tryParse doc = Except.error (ConfigurationError.errorReadingToml "Major")) := by
  constructor
  · intro hvalid
    obtain ⟨rules, hok⟩ := deserializeRules_ok_of_valid doc hvalid
    have hL := lookupRule_deserialized doc rules hok
    have keyAny : ∀ a : ReleaseAction, ∀ s : String, deserializeKey s = some a →
        (s = "major" ∧ a = ReleaseAction.major) ∨ (s = "minor" ∧ a = ReleaseAction.minor) ∨
        (s = "patch" ∧ a = ReleaseAction.patch) := by
      intro a s hs
      rcases (deserializeKey_eq_some_iff s a).mp hs with ⟨h1, h2⟩ | ⟨h1, h2⟩ | ⟨h1, h2⟩
      · exact Or.inl ⟨h2, h1⟩
      · exact Or.inr (Or.inl ⟨h2, h1⟩)
      · exact Or.inr (Or.inr ⟨h2, h1⟩)
    have absent : ∀ a : ReleaseAction, ∀ name : String,
        (∀ s : String, deserializeKey s = some a ↔ s = name) →
        doc.all (fun p => p.1 != name) = true →
        (lookupRule rules a) = none := by
      intro a name hname hall
      have : (lookupRule rules a).isSome = false := by
        rw [hL a, List.any_eq_false]
        intro p hp
        simp only [beq_iff_eq]
        intro hds
        have := (hname p.1).mp hds
        have hmem := List.all_eq_true.mp hall p hp
        simp only [bne_iff_ne, ne_eq] at hmem
        exact hmem this
      cases hlk : lookupRule rules a
      · rfl
      · rw [hlk] at this; exact absurd this (by simp)
    have present : ∀ a : ReleaseAction, ∀ name : String,
        (∀ s : String, deserializeKey s = some a ↔ s = name) →
        doc.any (fun p => p.1 == name) = true →
        (lookupRule rules a).isSome = true := by
      intro a name hname hany
      rw [hL a, List.any_eq_true]
      rw [List.any_eq_true] at hany
      obtain ⟨p, hp, hpname⟩ := hany
      refine ⟨p, hp, ?_⟩
      simp only [beq_iff_eq] at hpname ⊢
      exact (hname p.1).mpr hpname
    have hmajName : ∀ s : String, deserializeKey s = some ReleaseAction.major ↔ s = "major" := by
      intro s
      rw [deserializeKey_eq_some_iff]
      simp
    have hminName : ∀ s : String, deserializeKey s = some ReleaseAction.minor ↔ s = "minor" := by
      intro s
      rw [deserializeKey_eq_some_iff]
      simp
    have hpatName : ∀ s : String, deserializeKey s = some ReleaseAction.patch ↔ s = "patch" := by
      intro s
      rw [deserializeKey_eq_some_iff]
      simp
    refine ⟨?_, ?_, ?_⟩
    · intro hnomaj
      have h1 := absent ReleaseAction.major "major" hmajName hnomaj
      simp [tryParse, hok, h1]
    · intro hmaj hnomin
      obtain ⟨vM, hvM⟩ :=
        Option.isSome_iff_exists.mp (present ReleaseAction.major "major" hmajName hmaj)
      have h2 := absent ReleaseAction.minor "minor" hminName hnomin
      simp [tryParse, hok, hvM, h2]
    · intro hmaj hmin hnopat
      obtain ⟨vM, hvM⟩ :=
        Option.isSome_iff_exists.mp (present ReleaseAction.major "major" hmajName hmaj)
      obtain ⟨vm, hvm⟩ :=
        Option.isSome_iff_exists.mp (present ReleaseAction.minor "minor" hminName hmin)
      have h3 := absent ReleaseAction.patch "patch" hpatName hnopat
      simp [tryParse, hok, hvM, hvm, h3]
  · intro doc1 doc2 r hdoc hvalid1
    subst hdoc
    have := deserializeRules_capital_err r doc2 doc1 hvalid1
    simp [tryParse, this]

/-- Claim C8 witness: a table lacking `major` fails with the missing-`major`
error, and the capitalized-`Major` table fails with the TOML error. -/
theorem C8_missing_level_witness :
    tryParse [("minor", ruleX), ("patch", ruleX)] =
      Except.error (ConfigurationError.incorrectReleaseAction "major is missing") ∧
    tryParse docCapital = Except.error (ConfigurationError.errorReadingToml "Major") :=
  ⟨((C8_missing_level [("minor", ruleX), ("patch", ruleX)]).1 (by decide)).1 (by decide),
    (C8_missing_level docCapital).2 [] [("minor", ruleX), ("patch", ruleX)] ruleX rfl
      (by decide)⟩
